import Mathlib

/-!
Verification of the logo-overlay safety and layout algorithm of
`src/qr_creator_v01.py` (QR code generator with centered logo).

Shallow embedding conventions:
* Python numbers (floats used for the ratio arithmetic) are modelled as exact
  rationals `ℚ`; all ratio constants in the program are 2-decimal values on
  which the program's arithmetic (`-`, `max`, `min`, `round(·, 2)`) is exact,
  so the rational model is behaviourally faithful.
* Python `str` values are modelled as `List Char`; `str.strip`, `str.upper`,
  `str.lower`, `str.startswith` and `str.replace` are modelled by the
  list functions `pyStrip`, `pyUpper`, `pyLower`, `List.isPrefixOf` and
  `pyReplace` below.
* The qrcode library constants are the integers of `qrcode.constants`:
  `ERROR_CORRECT_M = 0`, `ERROR_CORRECT_L = 1`, `ERROR_CORRECT_H = 2`,
  `ERROR_CORRECT_Q = 3`.
* `round(x, 2)` (Python rounds half to even) is `pyRound2`; `int(x)`
  (truncation toward zero) is `pyTrunc`; `round(x)` is `roundHalfEven`.
-/

namespace QrLogo

/-- Error-correction levels `{L, M, Q, H}` as named in the spec. -/
inductive ECLevel where
  | L
  | M
  | Q
  | H
deriving DecidableEq

/-- Integer constant of the qrcode library for each level:
`ERROR_CORRECT_L = 1`, `ERROR_CORRECT_M = 0`, `ERROR_CORRECT_Q = 3`,
`ERROR_CORRECT_H = 2`. -/
def ECLevel.toCode : ECLevel → ℤ
  | .L => 1
  | .M => 0
  | .Q => 3
  | .H => 2

/-- Base cap dictionary lookup of `_max_safe_logo_ratio` (lines 53-54):
`{ERROR_CORRECT_L: 0.12, ERROR_CORRECT_M: 0.15, ERROR_CORRECT_Q: 0.18,
ERROR_CORRECT_H: 0.22}.get(ec_level, 0.18)`. -/
def baseCap (ec_level : ℤ) : ℚ :=
  if ec_level = 1 then 12/100
  else if ec_level = 0 then 15/100
  else if ec_level = 3 then 18/100
  else if ec_level = 2 then 22/100
  else 18/100

/-- Density penalty of `_max_safe_logo_ratio` (lines 55-59):
`0.03` for `modules_count >= 45`, else `0.02` for `modules_count >= 33`,
else `0`. -/
def densityPenalty (modules_count : ℕ) : ℚ :=
  if modules_count ≥ 45 then 3/100
  else if modules_count ≥ 33 then 2/100
  else 0

/-- `_max_safe_logo_ratio(ec_level, modules_count)` (lines 45-60):
`max(0.08, base - penalty)`. -/
def max_safe_logo_ratio (ec_level : ℤ) (modules_count : ℕ) : ℚ :=
  max (8/100) (baseCap ec_level - densityPenalty modules_count)

/-- The effective safe cap used by `create_qr_with_logo` (lines 207-209):
`safe_cap = min(_max_safe_logo_ratio(error_correction, modules_count), 0.20)`. -/
def effectiveSafeCap (ec_level : ℤ) (modules_count : ℕ) : ℚ :=
  min (max_safe_logo_ratio ec_level modules_count) (20/100)

/-- Base cap table exactly as claim C1 words it (spec §4.2 step 1). Used only
to compare against the source-derived `effectiveSafeCap`. -/
def claimBase : ECLevel → ℚ
  | .L => 12/100
  | .M => 15/100
  | .Q => 18/100
  | .H => 22/100

/-- Density penalty exactly as claim C1 words it (spec §4.2 step 2). -/
def claimPenalty (moduleCount : ℕ) : ℚ :=
  if 45 ≤ moduleCount then 3/100
  else if 33 ≤ moduleCount ∧ moduleCount < 45 then 2/100
  else 0

/-- Safe-ratio cap exactly as claim C1 words it:
`min(max(0.08, base - penalty), 0.20)`. -/
def claimSafeCap (level : ECLevel) (moduleCount : ℕ) : ℚ :=
  min (max (8/100) (claimBase level - claimPenalty moduleCount)) (20/100)

/-- Python `str.strip()` on the character-list model: drop leading and
trailing whitespace. -/
def pyStrip (s : List Char) : List Char :=
  ((s.dropWhile Char.isWhitespace).reverse.dropWhile Char.isWhitespace).reverse

/-- Python `str.upper()` on the character-list model. -/
def pyUpper (s : List Char) : List Char := s.map Char.toUpper

/-- Python `str.lower()` on the character-list model. -/
def pyLower (s : List Char) : List Char := s.map Char.toLower

/-- Detection of a vCard payload in `create_qr_with_logo` (lines 184-185):
`data.strip().upper().startswith("BEGIN:VCARD")`. -/
def isVcardPayload (data : List Char) : Bool :=
  "BEGIN:VCARD".data.isPrefixOf (pyUpper (pyStrip data))

/-- Detection of a MECARD payload in `create_qr_with_logo` (line 190):
`data.strip().upper().startswith("MECARD:")`. -/
def isMecardPayload (data : List Char) : Bool :=
  "MECARD:".data.isPrefixOf (pyUpper (pyStrip data))

/-- The contact-payload pre-clamp of `create_qr_with_logo` (lines 183-194):
a vCard payload clamps the requested ratio to at most `0.16`, a MECARD
payload to at most `0.18`, any other payload passes it through. -/
def preClampRatio (data : List Char) (logo_size_ratio : ℚ) : ℚ :=
  if isVcardPayload data then
    (if logo_size_ratio > 16/100 then 16/100 else logo_size_ratio)
  else if isMecardPayload data then
    (if logo_size_ratio > 18/100 then 18/100 else logo_size_ratio)
  else logo_size_ratio

/-- The logo ratio `create_qr_with_logo` actually applies (lines 183-212):
the pre-clamped requested ratio, then
`logo_size_ratio = max(0.08, min(logo_size_ratio, safe_cap))` with
`safe_cap = min(_max_safe_logo_ratio(ec, modules_count), 0.20)`. -/
def appliedLogoRatio (data : List Char) (logo_size_ratio : ℚ)
    (ec_level : ℤ) (modules_count : ℕ) : ℚ :=
  max (8/100)
    (min (preClampRatio data logo_size_ratio) (effectiveSafeCap ec_level modules_count))

/-- The quiet-zone border actually used by `create_qr_with_logo`
(lines 183-202): `border_size = max(border_size, 4)` in the vCard and MECARD
branches, the caller's `border_size` otherwise. -/
def effectiveBorderSize (data : List Char) (border_size : ℤ) : ℤ :=
  if isVcardPayload data then max border_size 4
  else if isMecardPayload data then max border_size 4
  else border_size

/-- Worker for `pyReplace`, structurally recursive on a fuel argument that
stays at least the length of the remaining list. -/
def pyReplaceFuel (old new : List Char) : ℕ → List Char → List Char
  | 0, s => s
  | fuel + 1, s =>
    match s with
    | [] => []
    | c :: cs =>
      if old ≠ [] ∧ old.isPrefixOf (c :: cs) then
        new ++ pyReplaceFuel old new fuel ((c :: cs).drop old.length)
      else
        c :: pyReplaceFuel old new fuel cs

/-- Python `str.replace(old, new)` on the character-list model: replace
non-overlapping occurrences left to right, scanning past each inserted
replacement. (All call sites in the source use a non-empty `old`; the
guard makes the empty-`old` case a no-op.) -/
def pyReplace (old new s : List Char) : List Char :=
  pyReplaceFuel old new s.length s

/-- `_escape_vcard` (lines 26-33): backslash doubled first, then `CRLF` and
`LF` each to the literal two-character sequence `\n`, then `;` and `,`
escaped. (The `if not s: return ""` early return agrees with the
replacement chain on the empty string.) -/
def escape_vcard (s : List Char) : List Char :=
  pyReplace [','] ['\\', ',']
    (pyReplace [';'] ['\\', ';']
      (pyReplace ['\n'] ['\\', 'n']
        (pyReplace ['\r', '\n'] ['\\', 'n']
          (pyReplace ['\\'] ['\\', '\\'] s))))

/-- The unescaping corresponding to `_escape_vcard` as the spec describes the
round trip (spec §4.5): a backslash followed by `n` yields a newline, a
backslash followed by any other character yields that character. -/
def unescapeVcard : List Char → List Char
  | [] => []
  | '\\' :: c :: cs => (if c = 'n' then '\n' else c) :: unescapeVcard cs
  | c :: cs => c :: unescapeVcard cs

/-- Character-level description of `_escape_vcard` used in the proofs: the
escaping is the concatenation of per-character encodings once `CRLF`
collapsing cannot occur. -/
def encVcardChar (c : Char) : List Char :=
  if c = '\\' then ['\\', '\\']
  else if c = '\n' then ['\\', 'n']
  else if c = ';' then ['\\', ';']
  else if c = ',' then ['\\', ',']
  else [c]

/-- Concatenation of the images of a character-to-string function, used to
state the per-character description of the escaping. -/
def charMapConcat (f : Char → List Char) : List Char → List Char
  | [] => []
  | c :: cs => f c ++ charMapConcat f cs

/-- Python `round(x)` on the rational model: round half to even. -/
def roundHalfEven (x : ℚ) : ℤ :=
  if x - (⌊x⌋ : ℚ) < 1/2 then ⌊x⌋
  else if 1/2 < x - (⌊x⌋ : ℚ) then ⌊x⌋ + 1
  else if ⌊x⌋ % 2 = 0 then ⌊x⌋ else ⌊x⌋ + 1

/-- Python `round(q, 2)` on the rational model. -/
def pyRound2 (q : ℚ) : ℚ := (roundHalfEven (q * 100) : ℚ) / 100

/-- The ratio for the next attempt in `main`'s auto-tune retry (line 530):
`ratio = max(0.12, round(ratio - 0.02, 2))`. -/
def nextRatio (r : ℚ) : ℚ := max (12/100) (pyRound2 (r - 2/100))

/-- The validation/auto-tune loop of `main` (lines 504-534), returning the
list of ratios passed to `create_qr_with_logo`, one per attempt. The decode
capability is abstracted as a function of the attempt's ratio (the produced
image, hence the decode result, is determined by it once the other arguments
are fixed). `fuel` bounds the number of iterations; `none` means the loop was
still running when the fuel ran out. -/
def validationAttempts (validate autoTune : Bool) (decode : ℚ → Bool) :
    ℚ → ℕ → Option (List ℚ)
  | _, 0 => none
  | r, fuel + 1 =>
    if validate then
      if decode r = true ∨ autoTune = false ∨ r ≤ 12/100 then some [r]
      else Option.map (fun l => r :: l)
        (validationAttempts validate autoTune decode (nextRatio r) fuel)
    else some [r]

/-- Termination measure for the retry loop: how many hundredths the ratio
is above the `0.12` floor, rounded up. -/
def ratioMeasure (r : ℚ) : ℕ := (⌈(100 : ℚ) * r⌉ - 12).toNat

/-- Python `int(x)`: truncation toward zero. -/
def pyTrunc (q : ℚ) : ℤ := if q < 0 then ⌈q⌉ else ⌊q⌋

/-- The logo bounding side of `create_qr_with_logo` (line 225):
`max_side = int(min(qr_w, qr_h) * logo_size_ratio)`. -/
def logoMaxSide (qr_w qr_h : ℕ) (logo_size_ratio : ℚ) : ℤ :=
  pyTrunc ((min qr_w qr_h : ℕ) * logo_size_ratio)

/-- The scaled logo dimensions of `create_qr_with_logo` (lines 226-233):
`aspect = lw / lh`; for `aspect >= 1.0` take `(max_side,
int(round(max_side / aspect)))`, otherwise
`(int(round(max_side * aspect)), max_side)`. -/
def scaledLogoSize (max_side : ℤ) (lw lh : ℕ) : ℤ × ℤ :=
  if (1 : ℚ) ≤ (lw : ℚ) / (lh : ℚ) then
    (max_side, roundHalfEven ((max_side : ℚ) / ((lw : ℚ) / (lh : ℚ))))
  else
    (roundHalfEven ((max_side : ℚ) * ((lw : ℚ) / (lh : ℚ))), max_side)

/-- Argument type of `_normalize_color` (`ColorLike`, line 20): a string, an
RGB tuple or an RGBA tuple. -/
inductive PyColor where
  | str (s : List Char)
  | tuple3 (r g b : ℤ)
  | tuple4 (r g b a : ℤ)

/-- Value of a lowercase hexadecimal digit. -/
def hexDigitVal (c : Char) : Option ℤ :=
  if '0' ≤ c ∧ c ≤ '9' then some ((c.toNat : ℤ) - ('0'.toNat : ℤ))
  else if 'a' ≤ c ∧ c ≤ 'f' then some ((c.toNat : ℤ) - ('a'.toNat : ℤ) + 10)
  else none

/-- Value of a two-digit lowercase hexadecimal component. -/
def hexPair (hi lo : Char) : Option ℤ :=
  match hexDigitVal hi, hexDigitVal lo with
  | some h, some l => some (16 * h + l)
  | _, _ => none

/-- Model of the colour-name table of the external collaborator
`PIL.ImageColor` (a subset of its 148-entry CSS colormap; the program's
defaults use only `black` and `white`). -/
def pilColormap : List (List Char × (ℤ × ℤ × ℤ)) :=
  [("black".data, (0, 0, 0)),
   ("white".data, (255, 255, 255)),
   ("red".data, (255, 0, 0)),
   ("green".data, (0, 128, 0)),
   ("blue".data, (0, 0, 255))]

/-- Model of `PIL.ImageColor.getrgb` on an already lowercased string:
colormap lookup, then the `#rrggbb` and `#rrggbbaa` hex forms (the forms
relevant here; PIL additionally accepts `#rgb`, `#rgba` and functional
notations). `none` models the `ValueError` PIL raises otherwise. -/
def getrgbList (t : List Char) : Option ((ℤ × ℤ × ℤ) ⊕ (ℤ × ℤ × ℤ × ℤ)) :=
  match pilColormap.find? (fun p => p.1 == t) with
  | some p => some (Sum.inl p.2)
  | none =>
    match t with
    | ['#', a, b, c, d, e, f] =>
      match hexPair a b, hexPair c d, hexPair e f with
      | some r, some g, some bl => some (Sum.inl (r, g, bl))
      | _, _, _ => none
    | ['#', a, b, c, d, e, f, g, h] =>
      match hexPair a b, hexPair c d, hexPair e f, hexPair g h with
      | some r, some gr, some bl, some al => some (Sum.inr (r, gr, bl, al))
      | _, _, _, _ => none
    | _ => none

/-- Model of `PIL.ImageColor.getrgb` on a `ColorLike` argument. Its first
operation is `color = color.lower()`, a string method, so a tuple argument
raises `AttributeError` (modelled as `none`); tuples are never parsed. -/
def getrgb : PyColor → Option ((ℤ × ℤ × ℤ) ⊕ (ℤ × ℤ × ℤ × ℤ))
  | .str s => getrgbList (pyLower s)
  | .tuple3 _ _ _ => none
  | .tuple4 _ _ _ _ => none

/-- `_normalize_color` (lines 36-42): `ImageColor.getrgb(c)`, keeping the
first three components of a 4-tuple result (`rgb[:3]`); any exception is
re-raised as `ValueError(f"Invalid color ...")`, modelled as `Except.error`. -/
def normalize_color (c : PyColor) : Except (List Char) (ℤ × ℤ × ℤ) :=
  match getrgb c with
  | some (Sum.inl rgb) => Except.ok rgb
  | some (Sum.inr (r, g, b, _)) => Except.ok (r, g, b)
  | none => Except.error "Invalid color".data

lemma baseCap_toCode (level : ECLevel) : baseCap level.toCode = claimBase level := by
  cases level <;> norm_num [baseCap, ECLevel.toCode, claimBase]

lemma densityPenalty_eq_claimPenalty (mc : ℕ) : densityPenalty mc = claimPenalty mc := by
  unfold densityPenalty claimPenalty
  split_ifs <;> first | rfl | omega

/-- Claim C1: for every error-correction level in `{L,M,Q,H}` and every module
count, the effective safe logo-ratio cap used by `create_qr_with_logo` equals
`min(max(0.08, base - penalty), 0.20)` with the claimed base table and density
penalty. -/
theorem effective_cap_matches_claim (level : ECLevel) (moduleCount : ℕ) :
    effectiveSafeCap level.toCode moduleCount = claimSafeCap level moduleCount := by
  simp only [effectiveSafeCap, max_safe_logo_ratio, claimSafeCap,
    baseCap_toCode, densityPenalty_eq_claimPenalty]

/-- Claim C6: for every fixed module count, the effective safe cap is
monotonically non-decreasing across the error-correction levels in the order
`L < M < Q < H` (the 0.20 global ceiling included). -/
theorem cap_monotone_in_level (moduleCount : ℕ) :
    effectiveSafeCap ECLevel.L.toCode moduleCount ≤ effectiveSafeCap ECLevel.M.toCode moduleCount ∧
    effectiveSafeCap ECLevel.M.toCode moduleCount ≤ effectiveSafeCap ECLevel.Q.toCode moduleCount ∧
    effectiveSafeCap ECLevel.Q.toCode moduleCount ≤ effectiveSafeCap ECLevel.H.toCode moduleCount := by
  simp only [effectiveSafeCap, max_safe_logo_ratio, baseCap_toCode, claimBase]
  refine ⟨?_, ?_, ?_⟩ <;>
    exact min_le_min
      (max_le_max le_rfl (sub_le_sub_right (by norm_num) _)) le_rfl

lemma effectiveSafeCap_lb (ec : ℤ) (mc : ℕ) : 8/100 ≤ effectiveSafeCap ec mc :=
  le_min (le_max_left _ _) (by norm_num)

lemma effectiveSafeCap_ub (ec : ℤ) (mc : ℕ) : effectiveSafeCap ec mc ≤ 20/100 :=
  min_le_right _ _

lemma effectiveSafeCap_H_21 : effectiveSafeCap 2 21 = 20/100 := by
  simp only [effectiveSafeCap, max_safe_logo_ratio, baseCap, densityPenalty]
  norm_num

/-- Claim C2, counterexample: for a vCard payload the applied ratio is the
pre-clamped value `0.16` while `clamp(requestedRatio, 0.08, cap)` is `0.20`
(here `requestedRatio = 0.20`, level `H`, 21 modules), and the two values
differ, so the applied ratio does not equal the claimed clamp of the
requested ratio. -/
theorem applied_ratio_clamp_claim_false :
    appliedLogoRatio "BEGIN:VCARD".data (20/100) 2 21 = 16/100 ∧
    max (8/100) (min (20/100) (effectiveSafeCap 2 21)) = 20/100 ∧
    ¬((16:ℚ)/100 = 20/100) := by
  have hv : isVcardPayload "BEGIN:VCARD".data = true := by decide
  refine ⟨?_, ?_, by norm_num⟩
  · simp only [appliedLogoRatio, preClampRatio, hv, if_true, effectiveSafeCap_H_21]
    rw [if_pos (by norm_num : (20:ℚ)/100 > 16/100),
      min_eq_left (by norm_num), max_eq_right (by norm_num)]
  · rw [effectiveSafeCap_H_21, min_self, max_eq_right (by norm_num)]

/-- Claim C2, amended: for every payload, requested ratio, error-correction
level and module count, the applied ratio lies in `[0.08, cap]` and never
exceeds `0.20`; and whenever the payload is neither a vCard nor a MECARD
record, it equals `clamp(requestedRatio, 0.08, cap)` exactly. -/
theorem applied_ratio_in_range (data : List Char) (r : ℚ) (ec : ℤ) (mc : ℕ) :
    8/100 ≤ appliedLogoRatio data r ec mc ∧
    appliedLogoRatio data r ec mc ≤ effectiveSafeCap ec mc ∧
    appliedLogoRatio data r ec mc ≤ 20/100 ∧
    (isVcardPayload data = false → isMecardPayload data = false →
      appliedLogoRatio data r ec mc = max (8/100) (min r (effectiveSafeCap ec mc))) := by
  have h1 : (8:ℚ)/100 ≤ effectiveSafeCap ec mc := effectiveSafeCap_lb ec mc
  refine ⟨le_max_left _ _, max_le h1 (min_le_right _ _),
    le_trans (max_le h1 (min_le_right _ _)) (effectiveSafeCap_ub ec mc), ?_⟩
  intro hv hm
  simp [appliedLogoRatio, preClampRatio, hv, hm]

/-- Witness for `applied_ratio_in_range`: a plain URL payload with requested
ratio `0.25` at level `H`, 21 modules. -/
theorem applied_ratio_in_range_witness :
    8/100 ≤ appliedLogoRatio "https://example.com".data (25/100) 2 21 ∧
    appliedLogoRatio "https://example.com".data (25/100) 2 21 =
      max (8/100) (min (25/100) (effectiveSafeCap 2 21)) :=
  ⟨(applied_ratio_in_range "https://example.com".data (25/100) 2 21).1,
   (applied_ratio_in_range "https://example.com".data (25/100) 2 21).2.2.2
     (by decide) (by decide)⟩

/-- Claim C3: a vCard payload caps the applied logo ratio at `0.16`, a MECARD
payload at `0.18`, for every requested ratio, level and module count. -/
theorem contact_payload_hard_caps (data : List Char) (r : ℚ) (ec : ℤ) (mc : ℕ) :
    (isVcardPayload data = true → appliedLogoRatio data r ec mc ≤ 16/100) ∧
    (isMecardPayload data = true → appliedLogoRatio data r ec mc ≤ 18/100) := by
  constructor
  · intro hv
    have hpre : preClampRatio data r ≤ 16/100 := by
      simp only [preClampRatio, hv, if_true]
      split_ifs with h
      · exact le_refl _
      · exact le_of_not_lt h
    exact max_le (by norm_num) (le_trans (min_le_left _ _) hpre)
  · intro hm
    have hpre : preClampRatio data r ≤ 18/100 := by
      by_cases hv : isVcardPayload data = true
      · simp only [preClampRatio, hv, if_true]
        split_ifs with h
        · norm_num
        · exact le_trans (le_of_not_lt h) (by norm_num)
      · rw [Bool.not_eq_true] at hv
        simp [preClampRatio, hv, hm]
        split_ifs with h
        · exact le_refl _
        · exact le_of_not_lt h
    exact max_le (by norm_num) (le_trans (min_le_left _ _) hpre)

/-- Witness for `contact_payload_hard_caps`: a vCard payload and a MECARD
payload, each requesting ratio `0.20` at level `H`, 21 modules. -/
theorem contact_payload_hard_caps_witness :
    appliedLogoRatio "BEGIN:VCARD".data (20/100) 2 21 ≤ 16/100 ∧
    appliedLogoRatio "MECARD:N:Doe;".data (20/100) 2 21 ≤ 18/100 :=
  ⟨(contact_payload_hard_caps "BEGIN:VCARD".data (20/100) 2 21).1 (by decide),
   (contact_payload_hard_caps "MECARD:N:Doe;".data (20/100) 2 21).2 (by decide)⟩

/-- Claim C10: a payload whose stripped upper-cased text begins with
`BEGIN:VCARD` or `MECARD:` raises the quiet-zone border to `max(border, 4)`,
hence to at least 4 modules and never below the caller's value; any other
payload keeps the caller's `border_size` unchanged. -/
theorem contact_border_floor (data : List Char) (b : ℤ) :
    ((isVcardPayload data = true ∨ isMecardPayload data = true) →
      effectiveBorderSize data b = max b 4 ∧ 4 ≤ effectiveBorderSize data b ∧
        b ≤ effectiveBorderSize data b) ∧
    (isVcardPayload data = false → isMecardPayload data = false →
      effectiveBorderSize data b = b) := by
  constructor
  · intro hc
    have he : effectiveBorderSize data b = max b 4 := by
      rcases hc with h | h
      · simp [effectiveBorderSize, h]
      · by_cases hv : isVcardPayload data <;> simp [effectiveBorderSize, hv, h]
    exact ⟨he, he ▸ le_max_right _ _, he ▸ le_max_left _ _⟩
  · intro h1 h2
    simp [effectiveBorderSize, h1, h2]

/-- Witness for `contact_border_floor`: a vCard payload raises a border of 2
to 4; a URL payload keeps it at 2. -/
theorem contact_border_floor_witness :
    effectiveBorderSize "BEGIN:VCARD".data 2 = max 2 4 ∧
    effectiveBorderSize "https://example.com".data 2 = 2 :=
  ⟨((contact_border_floor "BEGIN:VCARD".data 2).1 (Or.inl (by decide))).1,
   (contact_border_floor "https://example.com".data 2).2 (by decide) (by decide)⟩

lemma pyReplaceFuel_congr (old new : List Char) :
    ∀ (f1 f2 : ℕ) (s : List Char), s.length ≤ f1 → s.length ≤ f2 →
      pyReplaceFuel old new f1 s = pyReplaceFuel old new f2 s := by
  intro f1
  induction f1 with
  | zero =>
    intro f2 s hs1 _
    have hnil : s = [] := List.eq_nil_of_length_eq_zero (Nat.le_zero.mp hs1)
    subst hnil
    cases f2 <;> rfl
  | succ f ih =>
    intro f2 s hs1 hs2
    cases s with
    | nil => cases f2 <;> rfl
    | cons c cs =>
      cases f2 with
      | zero => simp at hs2
      | succ g =>
        simp only [pyReplaceFuel]
        by_cases h : old ≠ [] ∧ old.isPrefixOf (c :: cs)
        · rw [if_pos h, if_pos h]
          have hl := List.length_pos.mpr h.1
          simp only [List.length_cons] at hs1 hs2
          congr 1
          apply ih
          · simp only [List.length_drop, List.length_cons]; omega
          · simp only [List.length_drop, List.length_cons]; omega
        · rw [if_neg h, if_neg h]
          simp only [List.length_cons] at hs1 hs2
          congr 1
          apply ih <;> omega

lemma pyReplace_cons (old new : List Char) (c : Char) (cs : List Char) :
    pyReplace old new (c :: cs) =
      if old ≠ [] ∧ old.isPrefixOf (c :: cs) then
        new ++ pyReplace old new ((c :: cs).drop old.length)
      else c :: pyReplace old new cs := by
  show pyReplaceFuel old new (c :: cs).length (c :: cs) = _
  rw [List.length_cons, pyReplaceFuel]
  by_cases h : old ≠ [] ∧ old.isPrefixOf (c :: cs)
  · rw [if_pos h, if_pos h]
    have hl := List.length_pos.mpr h.1
    congr 1
    apply pyReplaceFuel_congr
    · simp only [List.length_drop, List.length_cons]; omega
    · exact le_refl _
  · rw [if_neg h, if_neg h]
    rfl

lemma pyReplace_single (a : Char) (new : List Char) (s : List Char) :
    pyReplace [a] new s = charMapConcat (fun c => if c = a then new else [c]) s := by
  induction s with
  | nil => rfl
  | cons c cs ih =>
    rw [pyReplace_cons]
    by_cases hac : a = c
    · subst hac
      rw [if_pos ⟨List.cons_ne_nil a [], by simp [List.isPrefixOf]⟩]
      simp [charMapConcat, ih]
    · rw [if_neg (by simp [List.isPrefixOf, hac])]
      simp [charMapConcat, ih, Ne.symm hac]

lemma pyReplace_not_head (a : Char) (old new s : List Char) (h : a ∉ s) :
    pyReplace (a :: old) new s = s := by
  induction s with
  | nil => rfl
  | cons c cs ih =>
    rw [pyReplace_cons, if_neg, ih (fun hm => h (List.mem_cons_of_mem c hm))]
    rintro ⟨-, hp⟩
    simp only [List.isPrefixOf, Bool.and_eq_true, beq_iff_eq] at hp
    exact h (hp.1 ▸ List.mem_cons_self c cs)

lemma charMapConcat_append (f : Char → List Char) (l1 l2 : List Char) :
    charMapConcat f (l1 ++ l2) = charMapConcat f l1 ++ charMapConcat f l2 := by
  induction l1 <;> simp [charMapConcat, *]

lemma charMapConcat_comp (f g : Char → List Char) (s : List Char) :
    charMapConcat g (charMapConcat f s) =
      charMapConcat (fun c => charMapConcat g (f c)) s := by
  induction s <;> simp [charMapConcat, charMapConcat_append, *]

lemma charMapConcat_ext (f g : Char → List Char) (hfg : ∀ c, f c = g c)
    (s : List Char) : charMapConcat f s = charMapConcat g s := by
  induction s <;> simp [charMapConcat, hfg, *]

lemma not_mem_charMapConcat (a : Char) (f : Char → List Char) (s : List Char)
    (hf : ∀ c ∈ s, a ∉ f c) : a ∉ charMapConcat f s := by
  induction s with
  | nil => simp [charMapConcat]
  | cons c cs ih =>
    simp only [charMapConcat, List.mem_append]
    rintro (h | h)
    · exact hf c (List.mem_cons_self c cs) h
    · exact ih (fun d hd => hf d (List.mem_cons_of_mem c hd)) h

lemma escape_vcard_eq_enc (s : List Char) (hcr : '\r' ∉ s) :
    escape_vcard s = charMapConcat encVcardChar s := by
  unfold escape_vcard
  rw [pyReplace_single '\\']
  rw [pyReplace_not_head '\r' ['\n'] ['\\', 'n'] _ ?hcr1]
  case hcr1 =>
    apply not_mem_charMapConcat
    intro c hc
    by_cases hcb : c = '\\'
    · simp [hcb]
    · simp only [if_neg hcb, List.mem_singleton]
      rintro rfl
      exact hcr hc
  rw [pyReplace_single '\n', pyReplace_single ';', pyReplace_single ',']
  rw [charMapConcat_comp, charMapConcat_comp, charMapConcat_comp]
  apply charMapConcat_ext
  intro c
  by_cases h1 : c = '\\'
  · subst h1; rfl
  by_cases h2 : c = '\n'
  · subst h2; rfl
  by_cases h3 : c = ';'
  · subst h3; rfl
  by_cases h4 : c = ','
  · subst h4; rfl
  simp [charMapConcat, encVcardChar, h1, h2, h3, h4]

lemma unescapeVcard_cons_ne (c : Char) (h : c ≠ '\\') (cs : List Char) :
    unescapeVcard (c :: cs) = c :: unescapeVcard cs := by
  cases cs with
  | nil => simp [unescapeVcard]
  | cons d ds => simp [unescapeVcard, h]

lemma unescape_enc (s : List Char) :
    unescapeVcard (charMapConcat encVcardChar s) = s := by
  induction s with
  | nil => rfl
  | cons c cs ih =>
    show unescapeVcard (encVcardChar c ++ charMapConcat encVcardChar cs) = c :: cs
    by_cases h1 : c = '\\'
    · subst h1; simp [encVcardChar, unescapeVcard, ih]
    by_cases h2 : c = '\n'
    · subst h2; simp [encVcardChar, unescapeVcard, ih]
    by_cases h3 : c = ';'
    · subst h3; simp [encVcardChar, unescapeVcard, ih]
    by_cases h4 : c = ','
    · subst h4; simp [encVcardChar, unescapeVcard, ih]
    have henc : encVcardChar c = [c] := by simp [encVcardChar, h1, h2, h3, h4]
    rw [henc, List.singleton_append, unescapeVcard_cons_ne c h1, ih]

/-- Claim C7, counterexample: the escaping is not invertible, because the
two-character input `CR LF` and the one-character input `LF` are distinct
but both escape to the literal two-character sequence backslash-`n`, so no
unescaping can recover both originals. -/
theorem escape_vcard_not_injective :
    escape_vcard ['\r', '\n'] = escape_vcard ['\n'] ∧
    ¬(['\r', '\n'] = ['\n']) :=
  ⟨rfl, by decide⟩

/-- Claim C7, amended: for every input string containing no carriage return
(so every newline is a bare `LF`), escaping with `_escape_vcard` and then
unescaping recovers the original string, semicolons, commas, backslashes and
embedded newlines included. -/
theorem escape_vcard_roundtrip (s : List Char) (hcr : '\r' ∉ s) :
    unescapeVcard (escape_vcard s) = s := by
  rw [escape_vcard_eq_enc s hcr, unescape_enc]

/-- Witness for `escape_vcard_roundtrip`: a string containing `;`, `,`, a
backslash and an embedded `LF` newline round-trips. -/
theorem escape_vcard_roundtrip_witness :
    unescapeVcard (escape_vcard "a;b,c\\d\ne".data) = "a;b,c\\d\ne".data :=
  escape_vcard_roundtrip "a;b,c\\d\ne".data (by decide)

lemma va_stop (a : Bool) (d : ℚ → Bool) (r : ℚ) (fuel : ℕ)
    (h : d r = true ∨ a = false ∨ r ≤ 12/100) :
    validationAttempts true a d r (fuel + 1) = some [r] := by
  simp only [validationAttempts]
  rw [if_pos trivial, if_pos h]

lemma va_step (a : Bool) (d : ℚ → Bool) (r : ℚ) (fuel : ℕ)
    (h : ¬(d r = true ∨ a = false ∨ r ≤ 12/100)) :
    validationAttempts true a d r (fuel + 1) =
      Option.map (fun l => r :: l)
        (validationAttempts true a d (nextRatio r) fuel) := by
  simp only [validationAttempts]
  rw [if_pos trivial, if_neg h]

lemma nextRatio_18 : nextRatio (18/100) = 16/100 := by
  norm_num [nextRatio, pyRound2, roundHalfEven]

lemma nextRatio_16 : nextRatio (16/100) = 14/100 := by
  norm_num [nextRatio, pyRound2, roundHalfEven]

lemma nextRatio_14 : nextRatio (14/100) = 12/100 := by
  norm_num [nextRatio, pyRound2, roundHalfEven]

/-- Claim C4: with validation and auto-tune enabled, starting ratio `0.18`
and a decode capability that fails on every attempt, the retry loop attempts
exactly the ratios `0.18, 0.16, 0.14, 0.12` and then gives up: any fuel of at
least 4 iterations yields that list, and 3 iterations are not enough. -/
theorem auto_tune_ratio_sequence :
    (∀ k : ℕ, validationAttempts true true (fun _ => false) (18/100) (k + 4) =
      some [18/100, 16/100, 14/100, 12/100]) ∧
    validationAttempts true true (fun _ => false) (18/100) 3 = none := by
  have h18 : ¬((fun _ : ℚ => false) (18/100) = true ∨ (true : Bool) = false ∨
      (18:ℚ)/100 ≤ 12/100) := by
    push_neg
    exact ⟨by simp, by simp, by norm_num⟩
  have h16 : ¬((fun _ : ℚ => false) (16/100) = true ∨ (true : Bool) = false ∨
      (16:ℚ)/100 ≤ 12/100) := by
    push_neg
    exact ⟨by simp, by simp, by norm_num⟩
  have h14 : ¬((fun _ : ℚ => false) (14/100) = true ∨ (true : Bool) = false ∨
      (14:ℚ)/100 ≤ 12/100) := by
    push_neg
    exact ⟨by simp, by simp, by norm_num⟩
  have h12 : (fun _ : ℚ => false) (12/100) = true ∨ (true : Bool) = false ∨
      (12:ℚ)/100 ≤ 12/100 := Or.inr (Or.inr (le_refl _))
  constructor
  · intro k
    have e4 : k + 4 = (((k + 1) + 1) + 1) + 1 := by omega
    rw [e4, va_step _ _ _ _ h18, nextRatio_18, va_step _ _ _ _ h16, nextRatio_16,
      va_step _ _ _ _ h14, nextRatio_14, va_stop _ _ _ _ h12]
    rfl
  · have e3 : (3:ℕ) = ((0 + 1) + 1) + 1 := by norm_num
    rw [e3, va_step _ _ _ _ h18, nextRatio_18, va_step _ _ _ _ h16, nextRatio_16,
      va_step _ _ _ _ h14, nextRatio_14]
    rfl

lemma roundHalfEven_le (x : ℚ) : (roundHalfEven x : ℚ) ≤ x + 1/2 := by
  unfold roundHalfEven
  split_ifs with h1 h2 h3
  · linarith [Int.floor_le x]
  · push_cast
    linarith
  · linarith [Int.floor_le x]
  · rw [not_lt] at h1
    push_cast
    linarith

lemma nextRatio_lt (r : ℚ) (h : 12/100 < r) : nextRatio r < r := by
  rw [nextRatio]
  apply max_lt h
  rw [pyRound2]
  have hle := roundHalfEven_le ((r - 2/100) * 100)
  rw [div_lt_iff₀ (by norm_num : (0:ℚ) < 100)]
  linarith

lemma ratioMeasure_pos (r : ℚ) (h : 12/100 < r) : 1 ≤ ratioMeasure r := by
  rw [ratioMeasure]
  have h1 : (12:ℚ) < 100 * r := by linarith
  have h2 : (12:ℤ) < ⌈(100:ℚ) * r⌉ := by
    have := lt_of_lt_of_le h1 (Int.le_ceil ((100:ℚ) * r))
    exact_mod_cast this
  omega

lemma ratioMeasure_floor : ratioMeasure (12/100) = 0 := by
  rw [ratioMeasure]
  norm_num

lemma ratioMeasure_next_lt (r : ℚ) (h : 12/100 < r) :
    ratioMeasure (nextRatio r) < ratioMeasure r := by
  have hpos := ratioMeasure_pos r h
  rw [nextRatio]
  by_cases hc : pyRound2 (r - 2/100) ≤ 12/100
  · rw [max_eq_left hc, ratioMeasure_floor]
    omega
  · push_neg at hc
    rw [max_eq_right (le_of_lt hc)]
    rw [ratioMeasure] at hpos ⊢
    rw [ratioMeasure]
    have hple : ((roundHalfEven ((r - 2/100) * 100)) : ℚ) ≤ (r - 2/100) * 100 + 1/2 :=
      roundHalfEven_le _
    have h100 : (100:ℚ) * pyRound2 (r - 2/100) = ((roundHalfEven ((r - 2/100) * 100)) : ℚ) := by
      rw [pyRound2]
      ring
    have hceil : ⌈(100:ℚ) * pyRound2 (r - 2/100)⌉ = roundHalfEven ((r - 2/100) * 100) := by
      rw [h100, Int.ceil_intCast]
    rw [hceil]
    have h1 : ((roundHalfEven ((r - 2/100) * 100)) : ℚ) < 100 * r - 1 := by linarith
    have h2 : roundHalfEven ((r - 2/100) * 100) < ⌈(100:ℚ) * r⌉ := by
      have hle : (100:ℚ) * r ≤ (⌈(100:ℚ) * r⌉ : ℚ) := Int.le_ceil _
      have : ((roundHalfEven ((r - 2/100) * 100)) : ℚ) < (⌈(100:ℚ) * r⌉ : ℚ) := by linarith
      exact_mod_cast this
    omega

lemma validation_terminates_aux (auto : Bool) (decode : ℚ → Bool) :
    ∀ (n : ℕ) (r : ℚ), ratioMeasure r ≤ n →
      (validationAttempts true auto decode r (n + 1)).isSome = true := by
  intro n
  induction n with
  | zero =>
    intro r hr
    by_cases h : decode r = true ∨ auto = false ∨ r ≤ 12/100
    · rw [va_stop _ _ _ _ h]
      rfl
    · exfalso
      push_neg at h
      have := ratioMeasure_pos r h.2.2
      omega
  | succ n ih =>
    intro r hr
    by_cases h : decode r = true ∨ auto = false ∨ r ≤ 12/100
    · rw [va_stop _ _ _ _ h]
      rfl
    · rw [va_step _ _ _ _ h]
      have h12 : 12/100 < r := by
        push_neg at h
        exact h.2.2
      have hlt : ratioMeasure (nextRatio r) ≤ n := by
        have := ratioMeasure_next_lt r h12
        omega
      have hs := ih (nextRatio r) hlt
      cases hva : validationAttempts true auto decode (nextRatio r) (n + 1) with
      | none => rw [hva] at hs; simp at hs
      | some l => rfl

/-- Claim C5: the validation/auto-tune retry loop terminates for every
starting ratio and every decode behaviour: each retry strictly decreases the
ratio (when it is above the `0.12` floor), and some finite fuel makes the
loop return. -/
theorem validation_loop_terminates (decode : ℚ → Bool) (auto : Bool) (r : ℚ) :
    (12/100 < r → nextRatio r < r) ∧
    ∃ fuel, (validationAttempts true auto decode r fuel).isSome = true :=
  ⟨nextRatio_lt r,
   ⟨ratioMeasure r + 1,
    validation_terminates_aux auto decode (ratioMeasure r) r (le_refl _)⟩⟩

/-- Witness for `validation_loop_terminates`: starting ratio `0.18` with
auto-tune on and an always-failing decode capability. -/
theorem validation_loop_terminates_witness :
    nextRatio (18/100) < 18/100 ∧
    ∃ fuel, (validationAttempts true true (fun _ => false) (18/100) fuel).isSome = true :=
  ⟨(validation_loop_terminates (fun _ => false) true (18/100)).1 (by norm_num),
   (validation_loop_terminates (fun _ => false) true (18/100)).2⟩

/-- Claim C8, counterexample: a 1000×1 logo on a 348×348 QR image at applied
ratio `0.08` (`max_side = ⌊348 · 0.08⌋ = 27`) scales to height
`round(27 / 1000) = 0`, below 1 pixel, although both input dimensions are
positive. -/
theorem scaled_logo_zero_height :
    0 < (1000:ℕ) ∧ 0 < (1:ℕ) ∧
    (scaledLogoSize (logoMaxSide 348 348 (8/100)) 1000 1).2 = 0 := by
  have hms : logoMaxSide 348 348 (8/100) = 27 := by
    rw [logoMaxSide, pyTrunc, if_neg (by norm_num)]
    norm_num
  refine ⟨by norm_num, by norm_num, ?_⟩
  rw [hms, scaledLogoSize,
    if_pos (show (1:ℚ) ≤ ((1000:ℕ):ℚ)/((1:ℕ):ℚ) by norm_num)]
  norm_num [roundHalfEven]

lemma roundHalfEven_ge_one (x : ℚ) (h : 1/2 < x) : 1 ≤ roundHalfEven x := by
  unfold roundHalfEven
  split_ifs with h1 h2 h3
  · by_contra hc
    push_neg at hc
    have h0 : ⌊x⌋ ≤ 0 := by omega
    have hq : (⌊x⌋:ℚ) ≤ 0 := by exact_mod_cast h0
    linarith
  · have h0 : 0 ≤ ⌊x⌋ := Int.floor_nonneg.mpr (by linarith)
    omega
  · by_contra hc
    push_neg at hc
    have h0 : ⌊x⌋ ≤ 0 := by omega
    have hq : (⌊x⌋:ℚ) ≤ 0 := by exact_mod_cast h0
    rw [not_lt] at h1
    linarith
  · have h0 : 0 ≤ ⌊x⌋ := Int.floor_nonneg.mpr (by linarith)
    omega

/-- Claim C8, amended: both scaled logo dimensions are at least 1 pixel for
every logo with positive width and height, provided the bounding side
`max_side` is at least 1 and the logo's aspect ratio is bounded by
`max(lw, lh) < 2 · max_side · min(lw, lh)` (the counterexample shows the
rounded smaller dimension drops to 0 pixels beyond that bound). -/
theorem scaled_logo_dims_positive (max_side : ℤ) (lw lh : ℕ)
    (hlw : 0 < lw) (hlh : 0 < lh) (hms : 1 ≤ max_side)
    (hbound : ((max lw lh : ℕ) : ℤ) < 2 * max_side * ((min lw lh : ℕ) : ℤ)) :
    1 ≤ (scaledLogoSize max_side lw lh).1 ∧ 1 ≤ (scaledLogoSize max_side lw lh).2 := by
  have hlwQ : (0:ℚ) < (lw:ℚ) := by exact_mod_cast hlw
  have hlhQ : (0:ℚ) < (lh:ℚ) := by exact_mod_cast hlh
  rw [scaledLogoSize]
  by_cases hasp : (1:ℚ) ≤ (lw:ℚ)/(lh:ℚ)
  · rw [if_pos hasp]
    refine ⟨hms, ?_⟩
    have hle : (lh:ℚ) ≤ (lw:ℚ) := (one_le_div hlhQ).mp hasp
    have hlhn : lh ≤ lw := by exact_mod_cast hle
    rw [max_eq_left hlhn, min_eq_right hlhn] at hbound
    have hq : (max_side:ℚ) / ((lw:ℚ)/(lh:ℚ)) = (max_side:ℚ) * (lh:ℚ) / (lw:ℚ) := by
      field_simp
    rw [hq]
    apply roundHalfEven_ge_one
    rw [lt_div_iff₀ hlwQ]
    have hbQ : (lw:ℚ) < 2 * (max_side:ℚ) * (lh:ℚ) := by exact_mod_cast hbound
    linarith
  · rw [if_neg hasp]
    refine ⟨?_, hms⟩
    push_neg at hasp
    have hle : (lw:ℚ) < (lh:ℚ) := (div_lt_one hlhQ).mp hasp
    have hlhn : lw ≤ lh := by
      have : lw < lh := by exact_mod_cast hle
      omega
    rw [max_eq_right hlhn, min_eq_left hlhn] at hbound
    have hq : (max_side:ℚ) * ((lw:ℚ)/(lh:ℚ)) = (max_side:ℚ) * (lw:ℚ) / (lh:ℚ) := by
      ring
    rw [hq]
    apply roundHalfEven_ge_one
    rw [lt_div_iff₀ hlhQ]
    have hbQ : (lh:ℚ) < 2 * (max_side:ℚ) * (lw:ℚ) := by exact_mod_cast hbound
    linarith

/-- Witness for `scaled_logo_dims_positive`: a 300×200 logo with
`max_side = 27` scales to dimensions at least 1×1. -/
theorem scaled_logo_dims_positive_witness :
    1 ≤ (scaledLogoSize 27 300 200).1 ∧ 1 ≤ (scaledLogoSize 27 300 200).2 :=
  scaled_logo_dims_positive 27 300 200 (by norm_num) (by norm_num) (by norm_num)
    (by norm_num)

/-- Claim C9: `_normalize_color` resolves recognized colour names and hex
strings (dropping the alpha of an `#rrggbbaa` input) but raises
`ValueError` on a numeric tuple such as `(0, 0, 0)`, because
`PIL.ImageColor.getrgb` accepts only strings — contradicting the source's
own `ColorLike` annotation and its `supports names, hex, tuples` comment. -/
theorem normalize_color_results :
    normalize_color (PyColor.tuple3 0 0 0) = Except.error "Invalid color".data ∧
    normalize_color (PyColor.str "black".data) = Except.ok (0, 0, 0) ∧
    normalize_color (PyColor.str "#10Ff30".data) = Except.ok (16, 255, 48) ∧
    normalize_color (PyColor.str "#10ff3040".data) = Except.ok (16, 255, 48) ∧
    normalize_color (PyColor.str "no such color".data) = Except.error "Invalid color".data :=
  ⟨rfl, rfl, rfl, rfl, rfl⟩

end QrLogo
